import Mathlib

/-!
Shallow embedding of `custom_components/elering_prices` (coordinator and
sensors) and proofs about the claims of its specification.

Conventions of the embedding:
* UTC instants and Unix timestamps are integers (seconds); Python `//` and
  `%` on them coincide with Lean `Int./` and `Int.%` (both floor-style for
  positive divisors).
* Python numbers (prices, VAT) are modelled as exact rationals `ℚ`;
  Python `round(x, n)` becomes `pyRound n x`, round-half-even over `ℚ`.
* JSON payloads are the inductive `JsonVal`; standard-library string
  functions the code calls are oracles over which statements quantify:
  `pIso : String → Option ℤ` for `datetime.fromisoformat`,
  `pFloat : String → Option ℚ` for `float` on a string, and — in the
  exception-aware definitions — `isdig : String → Bool` for
  `str.isdigit` and `intDig : String → Option ℤ` for `int` on a digit
  string (`none` = raised `ValueError`).
* Fallible Python code becomes `Option` (`none` = a skipped row or an
  `UpdateFailed`); the definitions suffixed `E` return `Except` and also
  model the exception that escapes the normalization loop uncaught,
  which the plain definitions do not reach: they embed the lenient
  fragment in which every `isdigit`-true string parses
  (`normalizeRowsE_ok_of_digits_parse`).
-/

namespace Elering

/-- JSON values, as produced by `resp.json()`. -/
inductive JsonVal where
  | null
  | bool (b : Bool)
  | num (q : ℚ)
  | str (s : String)
  | arr (elems : List JsonVal)
  | obj (fields : List (String × JsonVal))

/-- Round-half-even of a rational to an integer (Python `round` tie rule). -/
def rndHalfEven (q : ℚ) : ℤ :=
  let f := ⌊q⌋
  let r := q - f
  if r < 1 / 2 then f
  else if 1 / 2 < r then f + 1
  else if f % 2 = 0 then f else f + 1

/-- Python `round(x, n)` modelled over the rationals. -/
def pyRound (n : ℕ) (q : ℚ) : ℚ := (rndHalfEven (q * 10 ^ n) : ℚ) / 10 ^ n

/-- `int(x)` on a Python float/int: truncation toward zero. -/
def truncQ (q : ℚ) : ℤ := if 0 ≤ q then ⌊q⌋ else ⌈q⌉

/-- `_day_bounds_22utc`: the `[start, end)` bounds from 22:00Z to 22:00Z
containing `now` (seconds since epoch).  `now.replace(hour=22, minute=0,
second=0, microsecond=0)` is the 22:00 point of `now`'s UTC date. -/
def day_bounds_22utc (now : ℤ) : ℤ × ℤ :=
  let today22 := now / 86400 * 86400 + 79200
  if now < today22 then (today22 - 86400, today22)
  else (today22, today22 + 86400)

/-- `row.get(key)` with JSON `null` collapsed to Python `None`, as the
coordinator's `is None` tests treat both alike. -/
def pyGet (fields : List (String × JsonVal)) (key : String) : Option JsonVal :=
  match fields.find? (fun kv => kv.1 == key) with
  | some (_, JsonVal.null) => none
  | some (_, v) => some v
  | none => none

/-- The ASCII reading of Python `str.isdigit`, used by the lenient
fragment.  Python's `str.isdigit` also accepts Unicode digit characters
(`²`, `٣`, ...); that full class lives in the `isdig` oracle of
`tsOfRawE`, where `int` may then raise. -/
def pyIsDigit (s : String) : Bool := s.length != 0 && s.all Char.isDigit

/-- `int(s)` for a digit string. -/
def digitsToNat (s : String) : ℕ := s.foldl (fun n c => 10 * n + (c.toNat - 48)) 0

/-- Timestamp normalization of `ts_raw` (coordinator lines 145-155):
numbers (incl. bools) via `int(...)`, digit strings via `int(...)`, other
strings via `datetime.fromisoformat` after `replace("Z", "+00:00")`.
This is the no-raise fragment of `tsOfRawE`: it assumes every
`isdigit`-true string parses via `int`. -/
def tsOfRaw (pIso : String → Option ℤ) : Option JsonVal → Option ℤ
  | some (.num q) => some (truncQ q)
  | some (.bool b) => some (if b then 1 else 0)
  | some (.str s) =>
      if pyIsDigit s then some (digitsToNat s : ℤ)
      else pIso (s.replace "Z" "+00:00")
  | _ => none

/-- `float(x)` on a JSON value; `none` models the raised-and-caught
exception for unconvertible shapes. -/
def pyFloat (pFloat : String → Option ℚ) : JsonVal → Option ℚ
  | .num q => some q
  | .bool b => some (if b then 1 else 0)
  | .str s => pFloat s
  | _ => none

/-- `row.get("timestamp")`, falling back to `row.get("ts")`. -/
def rowTsRaw (fields : List (String × JsonVal)) : Option JsonVal :=
  match pyGet fields "timestamp" with
  | none => pyGet fields "ts"
  | some v => some v

/-- The timestamp recovered from a row's fields, if any. -/
def rowTs (pIso : String → Option ℤ) (fields : List (String × JsonVal)) : Option ℤ :=
  tsOfRaw pIso (rowTsRaw fields)

/-- `row.get(country)`, falling back to `row.get("price")`. -/
def rowPriceRaw (country : String) (fields : List (String × JsonVal)) : Option JsonVal :=
  match pyGet fields country with
  | none => pyGet fields "price"
  | some v => some v

/-- The raw price recovered from a row's fields, if any. -/
def rowPrice (pFloat : String → Option ℚ) (country : String)
    (fields : List (String × JsonVal)) : Option ℚ :=
  match rowPriceRaw country fields with
  | none => none
  | some v => pyFloat pFloat v

/-- A normalized quarter entry `{"ts": ..., "price": ...}`. -/
structure Quarter where
  ts : ℤ
  price : ℚ
deriving DecidableEq

/-- An hourly average entry `{"ts": ..., "price": ...}`. -/
structure HourEntry where
  ts : ℤ
  price : ℚ
deriving DecidableEq

/-- `self._vat_factor = 1.0 + vat_percent / 100.0`. -/
def vatFactor (vatPercent : ℚ) : ℚ := 1 + vatPercent / 100

/-- One iteration of the normalization loop (coordinator lines 139-174):
the quarter contributed by a row, or `none` when the row is skipped. -/
def normRow (pIso : String → Option ℤ) (pFloat : String → Option ℚ)
    (country : String) (vf : ℚ) : JsonVal → Option Quarter
  | .obj fields =>
    match rowTs pIso fields with
    | none => none
    | some ts =>
      match rowPrice pFloat country fields with
      | none => none
      | some p => some ⟨ts, pyRound 5 (p * vf)⟩
  | _ => none

/-- The whole normalization loop over the rows. -/
def normalizeRows (pIso : String → Option ℤ) (pFloat : String → Option ℚ)
    (country : String) (vf : ℚ) (rows : List JsonVal) : List Quarter :=
  rows.filterMap (normRow pIso pFloat country vf)

/-- `quarters.sort(key=lambda x: x["ts"])`. -/
def sortQuarters (qs : List Quarter) : List Quarter :=
  qs.mergeSort (fun a b => decide (a.ts ≤ b.ts))

/-- `(ts // 3600) * 3600`: start of the UTC hour containing `ts`. -/
def hourOf (ts : ℤ) : ℤ := ts / 3600 * 3600

/-- Mean of a list of rationals, `sum(bucket) / len(bucket)`. -/
def meanQ (l : List ℚ) : ℚ := l.sum / (l.length : ℚ)

/-- State of the hourly-averaging loop: `cur_hour`, `bucket`, `hours`. -/
structure HState where
  cur : Option ℤ
  bucket : List ℚ
  hours : List HourEntry

/-- One iteration of the hourly-averaging loop (coordinator lines 183-192). -/
def hStep (st : HState) (q : Quarter) : HState :=
  let hts := hourOf q.ts
  let cur := st.cur.getD hts
  if hts ≠ cur then
    { cur := some hts
      bucket := [q.price]
      hours := if st.bucket ≠ [] then st.hours ++ [⟨cur, meanQ st.bucket⟩] else st.hours }
  else
    { cur := some cur, bucket := st.bucket ++ [q.price], hours := st.hours }

/-- The trailing flush after the loop (coordinator lines 193-194). -/
def hFinish (st : HState) : List HourEntry :=
  if st.bucket ≠ [] then st.hours ++ [⟨st.cur.getD 0, meanQ st.bucket⟩] else st.hours

/-- `hours`: hourly averages built from the (sorted) quarters list
(coordinator lines 179-194). -/
def buildHours (qs : List Quarter) : List HourEntry :=
  if qs.isEmpty then [] else hFinish (qs.foldl hStep ⟨none, [], []⟩)

/-- Variant C key scan: first of the candidate keys holding a list. -/
def findListKey (d : List (String × JsonVal)) : List String → Option (List JsonVal)
  | [] => none
  | k :: ks =>
    match pyGet d k with
    | some (.arr l) => some l
    | _ => findListKey d ks

/-- Locating the list of price rows in the payload (coordinator lines
115-136): variant A `{"data": [...]}`; variant B a top-level list;
variant C `{"data": {"series"/"records"/"rows"/<country>: [...]}}`.
`none` models `UpdateFailed("Elering JSON missing price rows")`. -/
def extractRows (country : String) : JsonVal → Option (List JsonVal)
  | .obj fields =>
    match pyGet fields "data" with
    | some (.arr l) => some l
    | some (.obj d) => findListKey d ["series", "records", "rows", country]
    | _ => none
  | .arr l => some l
  | _ => none

/-- The normalized result dict built by a successful update.  The ISO
strings `as_of`, `start_utc`, `end_utc` are represented by the instants
they render. -/
structure UpdateResult where
  asOf : ℤ
  country : String
  startUtc : ℤ
  endUtc : ℤ
  quarters : List Quarter
  hours : List HourEntry
deriving DecidableEq

/-- The coordinator's mutable cache fields. -/
structure CoordState where
  cache : Option UpdateResult
  cacheWindow : Option (ℤ × ℤ)
deriving DecidableEq

/-- Outcome of the single HTTP request: a raised client exception, or a
response with a status code and (when the body parses as JSON) a payload. -/
inductive FetchOutcome where
  | exn
  | resp (status : ℕ) (body : Option JsonVal)

/-- The condition of the day-cache short-circuit (coordinator line 88). -/
def cacheHit (st : CoordState) (now : ℤ) : Prop :=
  st.cache.isSome ∧
    st.cacheWindow = some ((day_bounds_22utc now).1, (day_bounds_22utc now).2)

instance (st : CoordState) (now : ℤ) : Decidable (cacheHit st now) := by
  unfold cacheHit; infer_instance

/-- The result dict assembled on a successful fetch (coordinator lines
196-203). -/
def mkResult (pIso : String → Option ℤ) (pFloat : String → Option ℚ)
    (country : String) (vf : ℚ) (now : ℤ) (rows : List JsonVal) : UpdateResult :=
  let se := day_bounds_22utc now
  let qs := sortQuarters (normalizeRows pIso pFloat country vf rows)
  { asOf := now, country := country, startUtc := se.1, endUtc := se.2
    quarters := qs, hours := buildHours qs }

/-- `EleringCoordinator._async_update_data` as a pure step function over
the lenient fragment (`updateDataE` is the exception-aware version).
Returns the new cache state, `some result` on success or `none` for
`UpdateFailed`, and whether an HTTP request was issued. -/
def updateData (pIso : String → Option ℤ) (pFloat : String → Option ℚ)
    (country : String) (vf : ℚ) (st : CoordState) (now : ℤ) (f : FetchOutcome) :
    CoordState × Option UpdateResult × Bool :=
  let se := day_bounds_22utc now
  let win := (se.1, se.2)
  if cacheHit st now then
    (st, st.cache, false)
  else
    match f with
    | .exn => (st, none, true)
    | .resp status body =>
      if status ≠ 200 then (st, none, true)
      else
        match body with
        | none => (st, none, true)
        | some payload =>
          match extractRows country payload with
          | none => (st, none, true)
          | some rows =>
            let r := mkResult pIso pFloat country vf now rows
            (⟨some r, some win⟩, some r, true)

/-- The fetch-failure conditions enumerated by the specification: a
network/client exception, a non-200 status, an unparseable body, or a
payload in which no list of price rows can be located. -/
def fetchBad (country : String) : FetchOutcome → Prop
  | .exn => True
  | .resp status body =>
      status ≠ 200 ∨ body = none ∨ ∀ p, body = some p → extractRows country p = none

/-- The quarter-sensor scan (sensor lines 59-64): walk the quarters,
remembering the last entry with `ts ≤ now`, stopping at the first later
one. -/
def qScan (now : ℤ) : List Quarter → Option Quarter → Option Quarter
  | [], acc => acc
  | item :: rest, acc =>
      if item.ts ≤ now then qScan now rest (some item) else acc

/-- Quarters list as read by the sensors (`coordinator.data or ...`). -/
def dataQuarters (data : Option UpdateResult) : List Quarter :=
  match data with
  | some d => d.quarters
  | none => []

/-- Hours list as read by the sensors. -/
def dataHours (data : Option UpdateResult) : List HourEntry :=
  match data with
  | some d => d.hours
  | none => []

/-- `QuarterPriceMWh.native_value`. -/
def QuarterPriceMWh (data : Option UpdateResult) (now : ℤ) : Option ℚ :=
  match qScan now (dataQuarters data) none with
  | some q => some (pyRound 2 q.price)
  | none => none

/-- `QuarterPriceSkWh.native_value` (1 €/MWh = 0.1 s/kWh). -/
def QuarterPriceSkWh (data : Option UpdateResult) (now : ℤ) : Option ℚ :=
  match qScan now (dataQuarters data) none with
  | some q => some (pyRound 2 (q.price / 10))
  | none => none

/-- `HourlyAvgMWh.native_value`. -/
def HourlyAvgMWh (data : Option UpdateResult) (now : ℤ) : Option ℚ :=
  let nowHour := now / 3600 * 3600
  match (dataHours data).find? (fun h => decide (h.ts = nowHour)) with
  | some h => some (pyRound 2 h.price)
  | none => none

/-- `HourlyAvgSkWh.native_value`. -/
def HourlyAvgSkWh (data : Option UpdateResult) (now : ℤ) : Option ℚ :=
  let nowHour := now / 3600 * 3600
  match (dataHours data).find? (fun h => decide (h.ts = nowHour)) with
  | some h => some (pyRound 2 (h.price / 10))
  | none => none

/-- Specification view of the hourly loop: the hour entries produced from
a current hour `h`, its pending bucket `b`, and the remaining quarters. -/
def hAux (h : ℤ) (b : List ℚ) : List Quarter → List HourEntry
  | [] => [⟨h, meanQ b⟩]
  | q :: rest =>
    if hourOf q.ts = h then hAux h (b ++ [q.price]) rest
    else ⟨h, meanQ b⟩ :: hAux (hourOf q.ts) [q.price] rest

/-- Errors escaping one `_async_update_data` call: the `UpdateFailed` it
raises deliberately, or an unexpected exception that escapes uncaught
(such as the `ValueError` of a bare `int()` call). -/
inductive UpdateErr where
  | updateFailed
  | crashed
deriving DecidableEq

/-- Exception-aware timestamp normalization (coordinator lines 145-155).
Python's `str.isdigit` and `int` on digit strings are oracles like the
other standard-library parsers: `isdig s` decides `s.isdigit()`, and
`intDig s` is `some` the value of `int(s)`, or `none` when `int` raises
`ValueError` — which happens for `isdigit`-true strings made of digit
characters without a decimal value, such as the superscript `²`.  That
`int()` call sits in no `try`, so its error escapes (`Except.error`);
every other failure skips the row (`Except.ok none`).  (`JsonVal.num`
ranges over finite numbers; the non-finite `NaN`/`Infinity` literals the
JSON parser also accepts, on which `int()` raises as well, are outside
the rational model.) -/
def tsOfRawE (isdig : String → Bool) (intDig : String → Option ℤ)
    (pIso : String → Option ℤ) : Option JsonVal → Except Unit (Option ℤ)
  | some (.num q) => .ok (some (truncQ q))
  | some (.bool b) => .ok (some (if b then 1 else 0))
  | some (.str s) =>
      if isdig s then
        match intDig s with
        | some n => .ok (some n)
        | none => .error ()
      else .ok (pIso (s.replace "Z" "+00:00"))
  | _ => .ok none

/-- Exception-aware row normalization: the quarter contributed by a row,
`none` when it is skipped, or the escaped exception. -/
def normRowE (isdig : String → Bool) (intDig : String → Option ℤ)
    (pIso : String → Option ℤ) (pFloat : String → Option ℚ)
    (country : String) (vf : ℚ) : JsonVal → Except Unit (Option Quarter)
  | .obj fields =>
    match tsOfRawE isdig intDig pIso (rowTsRaw fields) with
    | .error e => .error e
    | .ok none => .ok none
    | .ok (some ts) =>
      match rowPrice pFloat country fields with
      | none => .ok none
      | some p => .ok (some ⟨ts, pyRound 5 (p * vf)⟩)
  | _ => .ok none

/-- Exception-aware normalization loop: the collected quarters, or the
first escaped exception (which discards everything collected so far). -/
def normalizeRowsE (isdig : String → Bool) (intDig : String → Option ℤ)
    (pIso : String → Option ℤ) (pFloat : String → Option ℚ)
    (country : String) (vf : ℚ) : List JsonVal → Except Unit (List Quarter)
  | [] => .ok []
  | row :: rest =>
    match normRowE isdig intDig pIso pFloat country vf row with
    | .error e => .error e
    | .ok none => normalizeRowsE isdig intDig pIso pFloat country vf rest
    | .ok (some q) =>
      match normalizeRowsE isdig intDig pIso pFloat country vf rest with
      | .error e => .error e
      | .ok qs => .ok (q :: qs)

/-- Exception-aware `_async_update_data`: the new cache state, the
outcome (a result, the raised `UpdateFailed`, or an escaped unexpected
exception), and whether an HTTP request was issued. -/
def updateDataE (isdig : String → Bool) (intDig : String → Option ℤ)
    (pIso : String → Option ℤ) (pFloat : String → Option ℚ)
    (country : String) (vf : ℚ) (st : CoordState) (now : ℤ) (f : FetchOutcome) :
    CoordState × Except UpdateErr UpdateResult × Bool :=
  let se := day_bounds_22utc now
  let win := (se.1, se.2)
  if cacheHit st now then
    -- a hit implies the cache is populated; the `none` arm is unreachable
    (st, (match st.cache with
          | some r => Except.ok r
          | none => Except.error UpdateErr.updateFailed), false)
  else
    match f with
    | .exn => (st, .error .updateFailed, true)
    | .resp status body =>
      if status ≠ 200 then (st, .error .updateFailed, true)
      else
        match body with
        | none => (st, .error .updateFailed, true)
        | some payload =>
          match extractRows country payload with
          | none => (st, .error .updateFailed, true)
          | some rows =>
            match normalizeRowsE isdig intDig pIso pFloat country vf rows with
            | .error _ => (st, .error .crashed, true)
            | .ok qlist =>
              let qs := sortQuarters qlist
              let r : UpdateResult :=
                { asOf := now, country := country, startUtc := se.1, endUtc := se.2
                  quarters := qs, hours := buildHours qs }
              (⟨some r, some win⟩, .ok r, true)

end Elering
namespace Elering

/-- C4: `_day_bounds_22utc` returns the unique half-open 22:00Z-to-22:00Z
window containing `now`: `start ≤ now < end`, `end = start + 24` hours,
and both bounds aligned exactly to 22:00:00 UTC. -/
theorem day_bounds_22utc_correct (now : ℤ) :
    (day_bounds_22utc now).1 ≤ now ∧ now < (day_bounds_22utc now).2 ∧
    (day_bounds_22utc now).2 = (day_bounds_22utc now).1 + 86400 ∧
    (day_bounds_22utc now).1 % 86400 = 79200 ∧
    (day_bounds_22utc now).2 % 86400 = 79200 ∧
    ∀ s : ℤ, s % 86400 = 79200 → s ≤ now → now < s + 86400 →
      s = (day_bounds_22utc now).1 := by
  simp only [day_bounds_22utc]
  split <;>
    exact ⟨by omega, by omega, by omega, by omega, by omega, fun s h1 h2 h3 => by omega⟩

/-- Witness for C4 at `now = 1000000`, `s = 943200`. -/
theorem day_bounds_22utc_correct_witness :
    (day_bounds_22utc 1000000).1 ≤ 1000000 ∧ 1000000 < (day_bounds_22utc 1000000).2 ∧
    (943200 : ℤ) % 86400 = 79200 ∧ (943200 : ℤ) = (day_bounds_22utc 1000000).1 :=
  ⟨(day_bounds_22utc_correct 1000000).1, (day_bounds_22utc_correct 1000000).2.1,
    by decide,
    (day_bounds_22utc_correct 1000000).2.2.2.2.2 943200 (by decide) (by decide) (by decide)⟩

/-- C2: every quarter produced by the normalization loop carries the raw
price of its row multiplied by the VAT factor `1 + v/100` and rounded to
5 decimals, together with the row's recovered timestamp. -/
theorem quarter_price_vat (pIso : String → Option ℤ) (pFloat : String → Option ℚ)
    (country : String) (v : ℚ) (rows : List JsonVal) :
    ∀ q ∈ normalizeRows pIso pFloat country (vatFactor v) rows,
      ∃ fields, JsonVal.obj fields ∈ rows ∧ rowTs pIso fields = some q.ts ∧
        ∃ p, rowPrice pFloat country fields = some p ∧
          q.price = pyRound 5 (p * vatFactor v) := by
  intro q hq
  rw [normalizeRows, List.mem_filterMap] at hq
  obtain ⟨row, hrow, hnorm⟩ := hq
  cases row with
  | obj fields =>
    refine ⟨fields, hrow, ?_⟩
    simp only [normRow] at hnorm
    cases hts : rowTs pIso fields with
    | none => rw [hts] at hnorm; simp at hnorm
    | some ts =>
      rw [hts] at hnorm
      cases hp : rowPrice pFloat country fields with
      | none => rw [hp] at hnorm; simp at hnorm
      | some p =>
        rw [hp] at hnorm
        simp only [Option.some.injEq] at hnorm
        subst hnorm
        exact ⟨rfl, p, rfl, rfl⟩
  | null => simp [normRow] at hnorm
  | bool b => simp [normRow] at hnorm
  | num n => simp [normRow] at hnorm
  | str s => simp [normRow] at hnorm
  | arr l => simp [normRow] at hnorm

/-- Witness for C2 on a one-row payload with raw price 4 and VAT 25%. -/
theorem quarter_price_vat_witness :
    (⟨0, 5⟩ : Quarter) ∈ normalizeRows (fun _ => none) (fun _ => none) "ee"
        (vatFactor 25) [JsonVal.obj [("timestamp", JsonVal.num 0), ("price", JsonVal.num 4)]] ∧
    ∃ fields,
      JsonVal.obj fields ∈ [JsonVal.obj [("timestamp", JsonVal.num 0), ("price", JsonVal.num 4)]] ∧
      rowTs (fun _ => none) fields = some (⟨0, 5⟩ : Quarter).ts ∧
      ∃ p, rowPrice (fun _ => none) "ee" fields = some p ∧
        (⟨0, 5⟩ : Quarter).price = pyRound 5 (p * vatFactor 25) := by
  have hmem : (⟨0, 5⟩ : Quarter) ∈ normalizeRows (fun _ => none) (fun _ => none) "ee"
      (vatFactor 25) [JsonVal.obj [("timestamp", JsonVal.num 0), ("price", JsonVal.num 4)]] := by
    simp [normalizeRows, normRow, rowTs, rowTsRaw, pyGet, tsOfRaw, truncQ, rowPrice,
      rowPriceRaw, pyFloat, vatFactor]
    norm_num [pyRound, rndHalfEven]
  exact ⟨hmem, quarter_price_vat (fun _ => none) (fun _ => none) "ee" 25 _ ⟨0, 5⟩ hmem⟩

end Elering
namespace Elering

/-- For a `ts`-sorted quarters list, the sensor scan `qScan` returns its
accumulator when no quarter is due, and otherwise the latest quarter with
`ts ≤ now`. -/
theorem qScan_sorted_spec (now : ℤ) :
    ∀ l : List Quarter, l.Pairwise (fun a b => a.ts ≤ b.ts) → ∀ acc : Option Quarter,
      ((∀ q ∈ l, ¬ q.ts ≤ now) → qScan now l acc = acc) ∧
      (∀ q ∈ l, q.ts ≤ now → ∃ r, qScan now l acc = some r ∧ r ∈ l ∧ r.ts ≤ now ∧
        ∀ q2 ∈ l, q2.ts ≤ now → q2.ts ≤ r.ts) := by
  intro l
  induction l with
  | nil => exact fun _ acc => ⟨fun _ => rfl, fun q hq => absurd hq (List.not_mem_nil q)⟩
  | cons i rest ih =>
    intro hsort acc
    rw [List.pairwise_cons] at hsort
    by_cases hle : i.ts ≤ now
    · have hscan : qScan now (i :: rest) acc = qScan now rest (some i) := by
        simp [qScan, hle]
      refine ⟨fun hnone => absurd hle (hnone i (List.mem_cons_self i rest)), ?_⟩
      intro q hq hqle
      by_cases hex : ∃ q2 ∈ rest, q2.ts ≤ now
      · obtain ⟨q2, hq2, hq2le⟩ := hex
        obtain ⟨r, hr, hrmem, hrle, hrmax⟩ := (ih hsort.2 (some i)).2 q2 hq2 hq2le
        refine ⟨r, by rw [hscan]; exact hr, List.mem_cons_of_mem i hrmem, hrle, ?_⟩
        intro q3 hq3 hq3le
        rcases List.mem_cons.mp hq3 with h3 | h3
        · exact h3 ▸ hsort.1 r hrmem
        · exact hrmax q3 h3 hq3le
      · simp only [not_exists, not_and] at hex
        have hnone := (ih hsort.2 (some i)).1 hex
        refine ⟨i, by rw [hscan, hnone], List.mem_cons_self i rest, hle, ?_⟩
        intro q3 hq3 hq3le
        rcases List.mem_cons.mp hq3 with h3 | h3
        · exact le_of_eq (congrArg Quarter.ts h3)
        · exact absurd hq3le (hex q3 h3)
    · have hscan : qScan now (i :: rest) acc = acc := by simp [qScan, hle]
      refine ⟨fun _ => hscan, ?_⟩
      intro q hq hqle
      rcases List.mem_cons.mp hq with h3 | h3
      · exact absurd (h3 ▸ hqle) hle
      · exact absurd hqle (fun h => hle (le_trans (hsort.1 q h3) h))
  
/-- C6: on a `ts`-sorted quarters list the quarter-price sensors expose
the latest quarter with `ts ≤ now` — `QuarterPriceMWh` its price rounded
to 2 decimals, `QuarterPriceSkWh` its price divided by 10 and rounded to
2 decimals — and both are `None` exactly when no quarter is due yet
(in particular on empty data). -/
theorem quarter_sensor_values (data : Option UpdateResult) (now : ℤ)
    (hsort : (dataQuarters data).Pairwise (fun a b => a.ts ≤ b.ts)) :
    ((∀ q ∈ dataQuarters data, ¬ q.ts ≤ now) →
      QuarterPriceMWh data now = none ∧ QuarterPriceSkWh data now = none) ∧
    (∀ q ∈ dataQuarters data, q.ts ≤ now →
      ∃ r ∈ dataQuarters data, r.ts ≤ now ∧
        (∀ q2 ∈ dataQuarters data, q2.ts ≤ now → q2.ts ≤ r.ts) ∧
        QuarterPriceMWh data now = some (pyRound 2 r.price) ∧
        QuarterPriceSkWh data now = some (pyRound 2 (r.price / 10))) := by
  obtain ⟨hnone, hsome⟩ := qScan_sorted_spec now (dataQuarters data) hsort none
  constructor
  · intro hall
    rw [QuarterPriceMWh, QuarterPriceSkWh, hnone hall]
    exact ⟨rfl, rfl⟩
  · intro q hq hqle
    obtain ⟨r, hr, hrmem, hrle, hrmax⟩ := hsome q hq hqle
    exact ⟨r, hrmem, hrle, hrmax,
      by rw [QuarterPriceMWh, hr], by rw [QuarterPriceSkWh, hr]⟩

/-- Witness for C6 on the sorted data `[(ts 0, price 3), (ts 900, price 4)]`
at `now = 1000`. -/
theorem quarter_sensor_values_witness :
    ∃ r ∈ dataQuarters (some ⟨0, "ee", 0, 0, [⟨0, 3⟩, ⟨900, 4⟩], []⟩), r.ts ≤ 1000 ∧
      (∀ q2 ∈ dataQuarters (some ⟨0, "ee", 0, 0, [⟨0, 3⟩, ⟨900, 4⟩], []⟩),
        q2.ts ≤ 1000 → q2.ts ≤ r.ts) ∧
      QuarterPriceMWh (some ⟨0, "ee", 0, 0, [⟨0, 3⟩, ⟨900, 4⟩], []⟩) 1000 =
        some (pyRound 2 r.price) ∧
      QuarterPriceSkWh (some ⟨0, "ee", 0, 0, [⟨0, 3⟩, ⟨900, 4⟩], []⟩) 1000 =
        some (pyRound 2 (r.price / 10)) :=
  (quarter_sensor_values (some ⟨0, "ee", 0, 0, [⟨0, 3⟩, ⟨900, 4⟩], []⟩) 1000
      (by norm_num [dataQuarters])).2
    ⟨0, 3⟩ (by norm_num [dataQuarters]) (by norm_num)

/-- C7: the hourly-average sensors return the price (rounded to 2
decimals, divided by 10 for the s/kWh variant) of an hours entry whose
`ts` is the current hour `(now // 3600) * 3600`, and `None` exactly when
no entry has that `ts`. -/
theorem hourly_sensor_values (data : Option UpdateResult) (now : ℤ) :
    (HourlyAvgMWh data now = none ↔ ∀ h ∈ dataHours data, h.ts ≠ now / 3600 * 3600) ∧
    (HourlyAvgSkWh data now = none ↔ ∀ h ∈ dataHours data, h.ts ≠ now / 3600 * 3600) ∧
    (∀ x, HourlyAvgMWh data now = some x →
      ∃ e ∈ dataHours data, e.ts = now / 3600 * 3600 ∧ x = pyRound 2 e.price) ∧
    (∀ x, HourlyAvgSkWh data now = some x →
      ∃ e ∈ dataHours data, e.ts = now / 3600 * 3600 ∧ x = pyRound 2 (e.price / 10)) := by
  simp only [HourlyAvgMWh, HourlyAvgSkWh]
  cases hfind : (dataHours data).find? (fun h => decide (h.ts = now / 3600 * 3600)) with
  | none =>
    have hall := List.find?_eq_none.mp hfind
    refine ⟨⟨fun _ h hm => by simpa using hall h hm, fun _ => rfl⟩,
      ⟨fun _ h hm => by simpa using hall h hm, fun _ => rfl⟩,
      fun x hx => Option.noConfusion hx, fun x hx => Option.noConfusion hx⟩
  | some e =>
    have hmem := List.mem_of_find?_eq_some hfind
    have he : e.ts = now / 3600 * 3600 := by simpa using List.find?_some hfind
    refine ⟨⟨fun h => Option.noConfusion h, fun hall => absurd he (hall e hmem)⟩,
      ⟨fun h => Option.noConfusion h, fun hall => absurd he (hall e hmem)⟩,
      fun x hx => ⟨e, hmem, he, by injection hx with h; exact h.symm⟩,
      fun x hx => ⟨e, hmem, he, by injection hx with h; exact h.symm⟩⟩

/-- Witness for C7 on data holding the single hours entry
`(ts 3600, price 7)` at `now = 3700`. -/
theorem hourly_sensor_values_witness :
    ∃ e ∈ dataHours (some ⟨0, "ee", 0, 0, [], [⟨3600, 7⟩]⟩), e.ts = (3700 : ℤ) / 3600 * 3600 ∧
      pyRound 2 7 = pyRound 2 e.price :=
  (hourly_sensor_values (some ⟨0, "ee", 0, 0, [], [⟨3600, 7⟩]⟩) 3700).2.2.1
    (pyRound 2 7) rfl

end Elering
namespace Elering

/-- A cache hit returns the cached day unchanged with no HTTP request. -/
theorem updateData_of_hit (pIso : String → Option ℤ) (pFloat : String → Option ℚ)
    (country : String) (vf : ℚ) (st : CoordState) (now : ℤ) (f : FetchOutcome)
    (hhit : cacheHit st now) :
    updateData pIso pFloat country vf st now f = (st, st.cache, false) := by
  simp only [updateData]
  rw [if_pos hhit]

/-- Exhaustive case analysis of one `_async_update_data` call: a cache
hit returning the cached day, a failed fetch raising `UpdateFailed`, or a
successful fetch assembling and caching a fresh result. -/
theorem updateData_cases (pIso : String → Option ℤ) (pFloat : String → Option ℚ)
    (country : String) (vf : ℚ) (st : CoordState) (now : ℤ) (f : FetchOutcome) :
    (cacheHit st now ∧
      updateData pIso pFloat country vf st now f = (st, st.cache, false)) ∨
    (¬ cacheHit st now ∧
      updateData pIso pFloat country vf st now f = (st, none, true) ∧
      fetchBad country f) ∨
    (¬ cacheHit st now ∧ ¬ fetchBad country f ∧
      ∃ payload rows, f = FetchOutcome.resp 200 (some payload) ∧
        extractRows country payload = some rows ∧
        updateData pIso pFloat country vf st now f =
          (⟨some (mkResult pIso pFloat country vf now rows),
              some ((day_bounds_22utc now).1, (day_bounds_22utc now).2)⟩,
            some (mkResult pIso pFloat country vf now rows), true)) := by
  by_cases hhit : cacheHit st now
  · exact Or.inl ⟨hhit, updateData_of_hit pIso pFloat country vf st now f hhit⟩
  · cases f with
    | exn =>
      exact Or.inr (Or.inl ⟨hhit, by simp only [updateData]; rw [if_neg hhit], trivial⟩)
    | resp status body =>
      by_cases hs : status = 200
      · subst hs
        cases body with
        | none =>
          refine Or.inr (Or.inl ⟨hhit, ?_, Or.inr (Or.inl rfl)⟩)
          simp only [updateData]
          rw [if_neg hhit, if_neg (by simp)]
        | some payload =>
          cases hex : extractRows country payload with
          | none =>
            refine Or.inr (Or.inl ⟨hhit, ?_, Or.inr (Or.inr ?_)⟩)
            · simp only [updateData]
              rw [if_neg hhit, if_neg (by simp), hex]
            · intro p hp
              cases hp
              exact hex
          | some rows =>
            refine Or.inr (Or.inr ⟨hhit, ?_, payload, rows, rfl, hex, ?_⟩)
            · intro hbad
              rcases hbad with h | h | h
              · exact h rfl
              · exact Option.noConfusion h
              · exact Option.noConfusion ((h payload rfl).symm.trans hex)
            · simp only [updateData]
              rw [if_neg hhit, if_neg (by simp), hex]
      · refine Or.inr (Or.inl ⟨hhit, ?_, Or.inl hs⟩)
        simp only [updateData]
        rw [if_neg hhit, if_pos hs]

/-- After any call of `_async_update_data` that returns a result, the
coordinator's cache fields hold exactly that result and the current 22Z
window. -/
theorem updateData_success_cache (pIso : String → Option ℤ) (pFloat : String → Option ℚ)
    (country : String) (vf : ℚ) (st : CoordState) (now : ℤ) (f : FetchOutcome)
    (r : UpdateResult)
    (h : (updateData pIso pFloat country vf st now f).2.1 = some r) :
    (updateData pIso pFloat country vf st now f).1.cache = some r ∧
    (updateData pIso pFloat country vf st now f).1.cacheWindow =
      some ((day_bounds_22utc now).1, (day_bounds_22utc now).2) := by
  rcases updateData_cases pIso pFloat country vf st now f with
    ⟨hhit, heq⟩ | ⟨_, heq, _⟩ | ⟨_, _, payload, rows, _, _, heq⟩
  · rw [heq] at h ⊢
    exact ⟨h, hhit.2⟩
  · rw [heq] at h
    exact Option.noConfusion h
  · rw [heq] at h ⊢
    exact ⟨h, rfl⟩

/-- C3: idempotence of the update within one 22Z-to-22Z window.  After a
successful `_async_update_data` call, any later call whose `now` falls in
the same window returns the same cached result, leaves the state
untouched, and issues no HTTP request, whatever its fetch would do. -/
theorem update_idempotent_in_window (pIso : String → Option ℤ) (pFloat : String → Option ℚ)
    (country : String) (vf : ℚ) (st : CoordState) (now1 now2 : ℤ)
    (f1 f2 : FetchOutcome) (r : UpdateResult)
    (hsucc : (updateData pIso pFloat country vf st now1 f1).2.1 = some r)
    (hwin : day_bounds_22utc now2 = day_bounds_22utc now1) :
    updateData pIso pFloat country vf
        (updateData pIso pFloat country vf st now1 f1).1 now2 f2 =
      ((updateData pIso pFloat country vf st now1 f1).1, some r, false) := by
  obtain ⟨hc, hw⟩ := updateData_success_cache pIso pFloat country vf st now1 f1 r hsucc
  have hhit : cacheHit (updateData pIso pFloat country vf st now1 f1).1 now2 := by
    rw [cacheHit, hwin]
    exact ⟨by rw [hc]; rfl, hw⟩
  rw [updateData_of_hit pIso pFloat country vf _ now2 f2 hhit, hc]

/-- C9: atomicity of the day cache.  Each `_async_update_data` call
either leaves `_cache`/`_cache_window` exactly as they were (in
particular whenever it raises `UpdateFailed`) or has returned a fresh
result and stored precisely that result with the current window. -/
theorem cache_update_atomic (pIso : String → Option ℤ) (pFloat : String → Option ℚ)
    (country : String) (vf : ℚ) (st : CoordState) (now : ℤ) (f : FetchOutcome) :
    (updateData pIso pFloat country vf st now f).1 = st ∨
    ∃ r, (updateData pIso pFloat country vf st now f).2.1 = some r ∧
      (updateData pIso pFloat country vf st now f).1 =
        ⟨some r, some ((day_bounds_22utc now).1, (day_bounds_22utc now).2)⟩ := by
  rcases updateData_cases pIso pFloat country vf st now f with
    ⟨_, heq⟩ | ⟨_, heq, _⟩ | ⟨_, _, payload, rows, _, _, heq⟩
  · exact Or.inl (by rw [heq])
  · exact Or.inl (by rw [heq])
  · exact Or.inr ⟨mkResult pIso pFloat country vf now rows, by rw [heq], by rw [heq]⟩

end Elering
namespace Elering

/-- Witness for C3: a successful fetch at `now = 0` (VAT 25%, one row,
raw price 4) followed by a call at `now = 10` in the same 22Z window with
a failing fetch: the second call returns the cached result, keeps the
state, and issues no request. -/
theorem update_idempotent_in_window_witness :
    updateData (fun _ => none) (fun _ => none) "ee" (vatFactor 25)
        (updateData (fun _ => none) (fun _ => none) "ee" (vatFactor 25) ⟨none, none⟩ 0
          (FetchOutcome.resp 200 (some (JsonVal.arr
            [JsonVal.obj [("timestamp", JsonVal.num 0), ("price", JsonVal.num 4)]])))).1
        10 FetchOutcome.exn =
      ((updateData (fun _ => none) (fun _ => none) "ee" (vatFactor 25) ⟨none, none⟩ 0
          (FetchOutcome.resp 200 (some (JsonVal.arr
            [JsonVal.obj [("timestamp", JsonVal.num 0), ("price", JsonVal.num 4)]])))).1,
        some ⟨0, "ee", -7200, 79200, [⟨0, 5⟩], [⟨0, 5⟩]⟩, false) :=
  update_idempotent_in_window (fun _ => none) (fun _ => none) "ee" (vatFactor 25)
    ⟨none, none⟩ 0 10 (FetchOutcome.resp 200 (some (JsonVal.arr
      [JsonVal.obj [("timestamp", JsonVal.num 0), ("price", JsonVal.num 4)]])))
    FetchOutcome.exn ⟨0, "ee", -7200, 79200, [⟨0, 5⟩], [⟨0, 5⟩]⟩
    (by
      have hnorm : normalizeRows (fun _ => none) (fun _ => none) "ee" (vatFactor 25)
          [JsonVal.obj [("timestamp", JsonVal.num 0), ("price", JsonVal.num 4)]] =
            [⟨0, 5⟩] := by
        simp [normalizeRows, normRow, rowTs, rowTsRaw, pyGet, tsOfRaw, truncQ, rowPrice,
          rowPriceRaw, pyFloat, vatFactor]
        norm_num [pyRound, rndHalfEven]
      have hb : buildHours [(⟨0, 5⟩ : Quarter)] = [⟨0, 5⟩] := by
        norm_num [buildHours, hFinish, hStep, hourOf, meanQ]
      have hdb : day_bounds_22utc 0 = (-7200, 79200) := by decide
      simp only [updateData, cacheHit]
      norm_num [extractRows, mkResult, sortQuarters, hnorm, hb, hdb])
    (by decide)

end Elering
namespace Elering

/-- Folding the hourly loop from a running state `(cur_hour = h, bucket =
b, hours = acc)` and then flushing equals `acc` followed by the entries
`hAux` describes. -/
theorem hAux_fold (qs : List Quarter) :
    ∀ (h : ℤ) (b : List ℚ) (acc : List HourEntry), b ≠ [] →
      hFinish (List.foldl hStep ⟨some h, b, acc⟩ qs) = acc ++ hAux h b qs := by
  induction qs with
  | nil =>
    intro h b acc hb
    simp [hFinish, hAux, hb]
  | cons q rest ih =>
    intro h b acc hb
    rw [List.foldl_cons]
    by_cases hh : hourOf q.ts = h
    · have hstep : hStep ⟨some h, b, acc⟩ q = ⟨some h, b ++ [q.price], acc⟩ := by
        simp [hStep, hh]
      rw [hstep, ih h (b ++ [q.price]) acc (by simp)]
      simp only [hAux, if_pos hh]
    · have hstep : hStep ⟨some h, b, acc⟩ q =
          ⟨some (hourOf q.ts), [q.price], acc ++ [⟨h, meanQ b⟩]⟩ := by
        simp [hStep, hh, hb]
      rw [hstep, ih (hourOf q.ts) [q.price] _ (by simp)]
      simp only [hAux, if_neg hh]
      simp

/-- `buildHours` on a nonempty list is `hAux` seeded with the first
quarter's hour and price. -/
theorem buildHours_cons (q : Quarter) (rest : List Quarter) :
    buildHours (q :: rest) = hAux (hourOf q.ts) [q.price] rest := by
  have hstep : hStep ⟨none, [], []⟩ q = ⟨some (hourOf q.ts), [q.price], []⟩ := by
    simp [hStep]
  have hne : ((q :: rest).isEmpty = true) = False := by simp
  simp only [buildHours, hne, if_false, List.foldl_cons, hstep]
  rw [hAux_fold rest (hourOf q.ts) [q.price] [] (by simp)]
  simp

/-- The hour starts appearing in `hAux h b qs` are exactly `h` together
with the hours of the quarters of `qs`. -/
theorem hAux_ts_mem (qs : List Quarter) :
    ∀ (h : ℤ) (b : List ℚ) (t : ℤ),
      (∃ e ∈ hAux h b qs, e.ts = t) ↔ (t = h ∨ ∃ r ∈ qs, hourOf r.ts = t) := by
  induction qs with
  | nil =>
    intro h b t
    simp [hAux, eq_comm]
  | cons q rest ih =>
    intro h b t
    by_cases hh : hourOf q.ts = h
    · simp only [hAux, if_pos hh]
      rw [ih]
      constructor
      · rintro (rfl | ⟨r, hr, hrt⟩)
        · exact Or.inl rfl
        · exact Or.inr ⟨r, List.mem_cons_of_mem q hr, hrt⟩
      · rintro (rfl | ⟨r, hr, hrt⟩)
        · exact Or.inl rfl
        · rcases List.mem_cons.mp hr with rfl | hr2
          · exact Or.inl (hrt ▸ hh.symm).symm
          · exact Or.inr ⟨r, hr2, hrt⟩
    · simp only [hAux, if_neg hh]
      constructor
      · rintro ⟨e, he, rfl⟩
        rcases List.mem_cons.mp he with rfl | he2
        · exact Or.inl rfl
        · rcases (ih (hourOf q.ts) [q.price] _).mp ⟨e, he2, rfl⟩ with h1 | ⟨r, hr, hrt⟩
          · exact Or.inr ⟨q, List.mem_cons_self q rest, h1.symm⟩
          · exact Or.inr ⟨r, List.mem_cons_of_mem q hr, hrt⟩
      · rintro (rfl | ⟨r, hr, hrt⟩)
        · exact ⟨⟨t, meanQ b⟩, List.mem_cons_self _ _, rfl⟩
        · rcases List.mem_cons.mp hr with rfl | hr2
          · obtain ⟨e, he, het⟩ := (ih (hourOf r.ts) [r.price] t).mpr (Or.inl hrt.symm)
            exact ⟨e, List.mem_cons_of_mem _ he, het⟩
          · obtain ⟨e, he, het⟩ := (ih (hourOf q.ts) [q.price] t).mpr (Or.inr ⟨r, hr2, hrt⟩)
            exact ⟨e, List.mem_cons_of_mem _ he, het⟩

/-- When every remaining quarter's hour is at least `h` and the hours are
nondecreasing, the hour starts emitted by `hAux` are strictly
increasing. -/
theorem hAux_ts_pairwise (qs : List Quarter) :
    ∀ (h : ℤ) (b : List ℚ),
      (∀ r ∈ qs, h ≤ hourOf r.ts) →
      qs.Pairwise (fun a c => hourOf a.ts ≤ hourOf c.ts) →
      ((hAux h b qs).map HourEntry.ts).Pairwise (· < ·) := by
  induction qs with
  | nil =>
    intro h b _ _
    simp [hAux]
  | cons q rest ih =>
    intro h b hbd hsort
    rw [List.pairwise_cons] at hsort
    by_cases hh : hourOf q.ts = h
    · simp only [hAux, if_pos hh]
      refine ih h (b ++ [q.price]) ?_ hsort.2
      intro r hr
      exact hh ▸ hsort.1 r hr
    · have hlt : h < hourOf q.ts :=
        lt_of_le_of_ne (hbd q (List.mem_cons_self q rest)) (fun e => hh e.symm)
      simp only [hAux, if_neg hh, List.map_cons]
      rw [List.pairwise_cons]
      constructor
      · intro t ht
        obtain ⟨e, he, rfl⟩ := List.mem_map.mp ht
        rcases (hAux_ts_mem rest (hourOf q.ts) [q.price] e.ts).mp ⟨e, he, rfl⟩ with
          h1 | ⟨r, hr, hrt⟩
        · omega
        · have := hsort.1 r hr
          omega
      · exact ih (hourOf q.ts) [q.price] (fun r hr => hsort.1 r hr) hsort.2

/-- Each entry of `hAux h b qs` carries the mean of the pending bucket
(for the entry of hour `h`) and of the prices of the quarters of its
hour. -/
theorem hAux_price (qs : List Quarter) :
    ∀ (h : ℤ) (b : List ℚ),
      (∀ r ∈ qs, h ≤ hourOf r.ts) →
      qs.Pairwise (fun a c => hourOf a.ts ≤ hourOf c.ts) →
      ∀ e ∈ hAux h b qs, e.price =
        meanQ ((if e.ts = h then b else []) ++
          (qs.filter (fun r => decide (hourOf r.ts = e.ts))).map Quarter.price) := by
  induction qs with
  | nil =>
    intro h b _ _ e he
    rcases List.mem_singleton.mp he with rfl
    simp
  | cons q rest ih =>
    intro h b hbd hsort e he
    rw [List.pairwise_cons] at hsort
    by_cases hh : hourOf q.ts = h
    · rw [hAux, if_pos hh] at he
      have := ih h (b ++ [q.price]) (fun r hr => hh ▸ hsort.1 r hr) hsort.2 e he
      by_cases het : e.ts = h
      · rw [this, if_pos het, List.filter_cons_of_pos (by simp [hh, het]), List.map_cons]
        rw [if_pos het, List.append_assoc]
        rfl
      · rw [this, if_neg het, List.filter_cons_of_neg
          (by simp only [decide_eq_true_eq, hh]; exact fun hc => het hc.symm), if_neg het]
    · have hlt : h < hourOf q.ts :=
        lt_of_le_of_ne (hbd q (List.mem_cons_self q rest)) (fun e2 => hh e2.symm)
      rw [hAux, if_neg hh] at he
      rcases List.mem_cons.mp he with rfl | he2
      · have hfq : ¬ (hourOf q.ts = (⟨h, meanQ b⟩ : HourEntry).ts) := by
          simp only []
          omega
        have hfr : ∀ r ∈ rest, ¬ (hourOf r.ts = (⟨h, meanQ b⟩ : HourEntry).ts) := by
          intro r hr
          have := hsort.1 r hr
          simp only []
          omega
        rw [List.filter_cons_of_neg (by simpa using hfq)]
        rw [List.filter_eq_nil_iff.mpr (by intro r hr; simpa using hfr r hr)]
        simp [meanQ]
      · have hts : e.ts = hourOf q.ts ∨ ∃ r ∈ rest, hourOf r.ts = e.ts :=
          (hAux_ts_mem rest (hourOf q.ts) [q.price] e.ts).mp ⟨e, he2, rfl⟩
        have hetsbig : hourOf q.ts ≤ e.ts := by
          rcases hts with h1 | ⟨r, hr, hrt⟩
          · omega
          · have := hsort.1 r hr
            omega
        have hene : ¬ (e.ts = h) := by omega
        have := ih (hourOf q.ts) [q.price] (fun r hr => hsort.1 r hr) hsort.2 e he2
        by_cases heq : e.ts = hourOf q.ts
        · rw [this, if_pos heq, List.filter_cons_of_pos (by simp [heq]), List.map_cons]
          rw [if_neg hene]
          rfl
        · rw [this, if_neg heq, List.filter_cons_of_neg (by simp; omega), if_neg hene]

end Elering
namespace Elering

/-- `hourOf` is monotone. -/
theorem hourOf_mono {a b : ℤ} (h : a ≤ b) : hourOf a ≤ hourOf b := by
  unfold hourOf
  omega

/-- The sorted quarters list is nondecreasing in `ts`. -/
theorem sortQuarters_sorted (l : List Quarter) :
    (sortQuarters l).Pairwise (fun a b => a.ts ≤ b.ts) := by
  have hs : (List.mergeSort l (fun a b => decide (a.ts ≤ b.ts))).Pairwise
      (fun a b => decide (a.ts ≤ b.ts) = true) :=
    List.sorted_mergeSort
      (fun a b c h1 h2 => by simp only [decide_eq_true_eq] at *; omega)
      (fun a b => by simp only [Bool.or_eq_true, decide_eq_true_eq]; omega) l
  exact hs.imp (by intro a b hab; simpa using hab)

/-- A call that both fetched and returned a result assembled it with
`mkResult` from the located rows. -/
theorem updateData_fetched_success (pIso : String → Option ℤ) (pFloat : String → Option ℚ)
    (country : String) (vf : ℚ) (st : CoordState) (now : ℤ) (f : FetchOutcome)
    (r : UpdateResult)
    (hsucc : (updateData pIso pFloat country vf st now f).2.1 = some r)
    (hfetch : (updateData pIso pFloat country vf st now f).2.2 = true) :
    ∃ rows, r = mkResult pIso pFloat country vf now rows := by
  rcases updateData_cases pIso pFloat country vf st now f with
    ⟨_, heq⟩ | ⟨_, heq, _⟩ | ⟨_, _, payload, rows, _, _, heq⟩
  · rw [heq] at hfetch
    exact Bool.noConfusion hfetch
  · rw [heq] at hsucc
    exact Option.noConfusion hsucc
  · rw [heq] at hsucc
    exact ⟨rows, (Option.some.inj hsucc).symm⟩

/-- On a `ts`-sorted quarters list, the hours list mentions exactly the
hours populated by some quarter. -/
theorem buildHours_sorted_mem (qs : List Quarter)
    (hsort : qs.Pairwise (fun a b => a.ts ≤ b.ts)) (t : ℤ) :
    (∃ e ∈ buildHours qs, e.ts = t) ↔ ∃ q ∈ qs, hourOf q.ts = t := by
  cases qs with
  | nil => simp [buildHours]
  | cons q rest =>
    rw [buildHours_cons, hAux_ts_mem]
    constructor
    · rintro (rfl | ⟨r, hr, hrt⟩)
      · exact ⟨q, List.mem_cons_self q rest, rfl⟩
      · exact ⟨r, List.mem_cons_of_mem q hr, hrt⟩
    · rintro ⟨r, hr, hrt⟩
      rcases List.mem_cons.mp hr with rfl | hr2
      · exact Or.inl hrt.symm
      · exact Or.inr ⟨r, hr2, hrt⟩

/-- On a `ts`-sorted quarters list, the hour starts of the hours list are
strictly increasing. -/
theorem buildHours_sorted_pairwise (qs : List Quarter)
    (hsort : qs.Pairwise (fun a b => a.ts ≤ b.ts)) :
    ((buildHours qs).map HourEntry.ts).Pairwise (· < ·) := by
  cases qs with
  | nil => simp [buildHours]
  | cons q rest =>
    rw [List.pairwise_cons] at hsort
    rw [buildHours_cons]
    exact hAux_ts_pairwise rest (hourOf q.ts) [q.price]
      (fun r hr => hourOf_mono (hsort.1 r hr))
      (hsort.2.imp (fun hab => hourOf_mono hab))

/-- On a `ts`-sorted quarters list, each hours entry carries the mean of
the prices of exactly the quarters of its hour. -/
theorem buildHours_sorted_price (qs : List Quarter)
    (hsort : qs.Pairwise (fun a b => a.ts ≤ b.ts)) :
    ∀ e ∈ buildHours qs, e.price =
      meanQ ((qs.filter (fun r => decide (hourOf r.ts = e.ts))).map Quarter.price) := by
  cases qs with
  | nil => simp [buildHours]
  | cons q rest =>
    rw [List.pairwise_cons] at hsort
    rw [buildHours_cons]
    intro e he
    have hrec := hAux_price rest (hourOf q.ts) [q.price]
      (fun r hr => hourOf_mono (hsort.1 r hr))
      (hsort.2.imp (fun hab => hourOf_mono hab)) e he
    by_cases heq : e.ts = hourOf q.ts
    · rw [hrec, if_pos heq, List.filter_cons_of_pos (by simp [heq]), List.map_cons]
      rfl
    · rw [hrec, if_neg heq, List.filter_cons_of_neg
        (by simp only [decide_eq_true_eq]; exact fun hc => heq hc.symm)]
      rfl

/-- C1: in every successfully fetched and normalized result, the hours
list has exactly one entry per distinct populated UTC hour, each entry's
`ts` being the hour start of its quarters and its price the arithmetic
mean of the (VAT-adjusted) prices of the quarters of that hour. -/
theorem hours_entries_are_hourly_means (pIso : String → Option ℤ)
    (pFloat : String → Option ℚ) (country : String) (vf : ℚ) (st : CoordState)
    (now : ℤ) (f : FetchOutcome) (r : UpdateResult)
    (hsucc : (updateData pIso pFloat country vf st now f).2.1 = some r)
    (hfetch : (updateData pIso pFloat country vf st now f).2.2 = true) :
    (∀ t, (∃ e ∈ r.hours, e.ts = t) ↔ ∃ q ∈ r.quarters, hourOf q.ts = t) ∧
    (r.hours.map HourEntry.ts).Nodup ∧
    (∀ e ∈ r.hours, e.price =
      meanQ ((r.quarters.filter (fun q2 => decide (hourOf q2.ts = e.ts))).map
        Quarter.price)) := by
  obtain ⟨rows, rfl⟩ :=
    updateData_fetched_success pIso pFloat country vf st now f r hsucc hfetch
  have hsort := sortQuarters_sorted (normalizeRows pIso pFloat country vf rows)
  exact ⟨fun t => buildHours_sorted_mem _ hsort t,
    (buildHours_sorted_pairwise _ hsort).imp (fun hab => ne_of_lt hab),
    buildHours_sorted_price _ hsort⟩

/-- C8: every result returned by `_async_update_data` — granted the
cached one, if any, was itself built by a former successful update — has
its quarters sorted nondecreasing by `ts` and its hours strictly
increasing by `ts`. -/
theorem result_series_sorted (pIso : String → Option ℤ) (pFloat : String → Option ℚ)
    (country : String) (vf : ℚ) (st : CoordState) (now : ℤ) (f : FetchOutcome)
    (r : UpdateResult)
    (hsucc : (updateData pIso pFloat country vf st now f).2.1 = some r)
    (hcache : ∀ c, st.cache = some c →
      c.quarters.Pairwise (fun a b => a.ts ≤ b.ts) ∧
      (c.hours.map HourEntry.ts).Pairwise (· < ·)) :
    r.quarters.Pairwise (fun a b => a.ts ≤ b.ts) ∧
    (r.hours.map HourEntry.ts).Pairwise (· < ·) := by
  rcases updateData_cases pIso pFloat country vf st now f with
    ⟨_, heq⟩ | ⟨_, heq, _⟩ | ⟨_, _, payload, rows, _, _, heq⟩
  · rw [heq] at hsucc
    exact hcache r hsucc
  · rw [heq] at hsucc
    exact Option.noConfusion hsucc
  · rw [heq] at hsucc
    obtain rfl := (Option.some.inj hsucc).symm
    exact ⟨sortQuarters_sorted _,
      buildHours_sorted_pairwise _ (sortQuarters_sorted _)⟩

end Elering
namespace Elering

/-- Witness for C1: a fetched payload of two quarters in the same hour
(raw prices 4 and 8, VAT 25%) yields the single hours entry
`(ts 0, price 15/2)`, the mean of 5 and 10. -/
theorem hours_entries_are_hourly_means_witness :
    (∀ t, (∃ e ∈ (⟨0, "ee", -7200, 79200, [⟨0, 5⟩, ⟨900, 10⟩],
          [⟨0, 15/2⟩]⟩ : UpdateResult).hours, e.ts = t) ↔
      ∃ q ∈ (⟨0, "ee", -7200, 79200, [⟨0, 5⟩, ⟨900, 10⟩],
          [⟨0, 15/2⟩]⟩ : UpdateResult).quarters, hourOf q.ts = t) ∧
    ((⟨0, "ee", -7200, 79200, [⟨0, 5⟩, ⟨900, 10⟩],
        [⟨0, 15/2⟩]⟩ : UpdateResult).hours.map HourEntry.ts).Nodup ∧
    (∀ e ∈ (⟨0, "ee", -7200, 79200, [⟨0, 5⟩, ⟨900, 10⟩],
        [⟨0, 15/2⟩]⟩ : UpdateResult).hours,
      e.price = meanQ (((⟨0, "ee", -7200, 79200, [⟨0, 5⟩, ⟨900, 10⟩],
          [⟨0, 15/2⟩]⟩ : UpdateResult).quarters.filter
        (fun q2 => decide (hourOf q2.ts = e.ts))).map Quarter.price)) := by
  have hnorm : normalizeRows (fun _ => none) (fun _ => none) "ee" (vatFactor 25)
      [JsonVal.obj [("timestamp", JsonVal.num 0), ("price", JsonVal.num 4)],
       JsonVal.obj [("timestamp", JsonVal.num 900), ("price", JsonVal.num 8)]] =
        [⟨0, 5⟩, ⟨900, 10⟩] := by
    simp [normalizeRows, normRow, rowTs, rowTsRaw, pyGet, tsOfRaw, truncQ, rowPrice,
      rowPriceRaw, pyFloat, vatFactor]
    norm_num [pyRound, rndHalfEven]
  have hsorteq : sortQuarters [(⟨0, 5⟩ : Quarter), ⟨900, 10⟩] = [⟨0, 5⟩, ⟨900, 10⟩] := by
    rw [sortQuarters]
    exact List.mergeSort_of_sorted (by decide)
  have hb : buildHours [(⟨0, 5⟩ : Quarter), ⟨900, 10⟩] = [⟨0, 15/2⟩] := by
    simp [buildHours, hFinish, hStep, hourOf, meanQ]
    norm_num
  have hdb : day_bounds_22utc 0 = (-7200, 79200) := by decide
  have hupd : updateData (fun _ => none) (fun _ => none) "ee" (vatFactor 25)
      ⟨none, none⟩ 0 (FetchOutcome.resp 200 (some (JsonVal.arr
        [JsonVal.obj [("timestamp", JsonVal.num 0), ("price", JsonVal.num 4)],
         JsonVal.obj [("timestamp", JsonVal.num 900), ("price", JsonVal.num 8)]]))) =
      (⟨some ⟨0, "ee", -7200, 79200, [⟨0, 5⟩, ⟨900, 10⟩], [⟨0, 15/2⟩]⟩,
          some (-7200, 79200)⟩,
        some ⟨0, "ee", -7200, 79200, [⟨0, 5⟩, ⟨900, 10⟩], [⟨0, 15/2⟩]⟩, true) := by
    simp only [updateData, cacheHit]
    norm_num [extractRows, mkResult, hnorm, hsorteq, hb, hdb]
  exact hours_entries_are_hourly_means (fun _ => none) (fun _ => none) "ee" (vatFactor 25)
    ⟨none, none⟩ 0 _ _ (by rw [hupd]) (by rw [hupd])

/-- Witness for C8 on the same fetched two-quarter payload, starting
from the empty cache. -/
theorem result_series_sorted_witness :
    ((⟨0, "ee", -7200, 79200, [⟨0, 5⟩, ⟨900, 10⟩],
        [⟨0, 15/2⟩]⟩ : UpdateResult).quarters.Pairwise (fun a b => a.ts ≤ b.ts)) ∧
    (((⟨0, "ee", -7200, 79200, [⟨0, 5⟩, ⟨900, 10⟩],
        [⟨0, 15/2⟩]⟩ : UpdateResult).hours.map HourEntry.ts).Pairwise (· < ·)) := by
  have hnorm : normalizeRows (fun _ => none) (fun _ => none) "ee" (vatFactor 25)
      [JsonVal.obj [("timestamp", JsonVal.num 0), ("price", JsonVal.num 4)],
       JsonVal.obj [("timestamp", JsonVal.num 900), ("price", JsonVal.num 8)]] =
        [⟨0, 5⟩, ⟨900, 10⟩] := by
    simp [normalizeRows, normRow, rowTs, rowTsRaw, pyGet, tsOfRaw, truncQ, rowPrice,
      rowPriceRaw, pyFloat, vatFactor]
    norm_num [pyRound, rndHalfEven]
  have hsorteq : sortQuarters [(⟨0, 5⟩ : Quarter), ⟨900, 10⟩] = [⟨0, 5⟩, ⟨900, 10⟩] := by
    rw [sortQuarters]
    exact List.mergeSort_of_sorted (by decide)
  have hb : buildHours [(⟨0, 5⟩ : Quarter), ⟨900, 10⟩] = [⟨0, 15/2⟩] := by
    simp [buildHours, hFinish, hStep, hourOf, meanQ]
    norm_num
  have hdb : day_bounds_22utc 0 = (-7200, 79200) := by decide
  have hupd : updateData (fun _ => none) (fun _ => none) "ee" (vatFactor 25)
      ⟨none, none⟩ 0 (FetchOutcome.resp 200 (some (JsonVal.arr
        [JsonVal.obj [("timestamp", JsonVal.num 0), ("price", JsonVal.num 4)],
         JsonVal.obj [("timestamp", JsonVal.num 900), ("price", JsonVal.num 8)]]))) =
      (⟨some ⟨0, "ee", -7200, 79200, [⟨0, 5⟩, ⟨900, 10⟩], [⟨0, 15/2⟩]⟩,
          some (-7200, 79200)⟩,
        some ⟨0, "ee", -7200, 79200, [⟨0, 5⟩, ⟨900, 10⟩], [⟨0, 15/2⟩]⟩, true) := by
    simp only [updateData, cacheHit]
    norm_num [extractRows, mkResult, hnorm, hsorteq, hb, hdb]
  exact result_series_sorted (fun _ => none) (fun _ => none) "ee" (vatFactor 25)
    ⟨none, none⟩ 0 _ _ (by rw [hupd]) (fun c hc => Option.noConfusion hc)

end Elering
namespace Elering

/-- The lenient model is the no-crash fragment of the exception-aware
one: under digit oracles on which every `isdigit`-true string parses —
the ASCII reading — `normalizeRowsE` never escapes and collects exactly
the quarters of `normalizeRows`. -/
theorem normalizeRowsE_ok_of_digits_parse (pIso : String → Option ℤ)
    (pFloat : String → Option ℚ) (country : String) (vf : ℚ) (rows : List JsonVal) :
    normalizeRowsE pyIsDigit (fun s => some (digitsToNat s)) pIso pFloat country vf rows =
      Except.ok (normalizeRows pIso pFloat country vf rows) := by
  induction rows with
  | nil => rfl
  | cons row rest ih =>
    have hrow : normRowE pyIsDigit (fun s => some (digitsToNat s)) pIso pFloat country vf
        row = Except.ok (normRow pIso pFloat country vf row) := by
      cases row with
      | obj fields =>
        have hts : tsOfRawE pyIsDigit (fun s => some (digitsToNat s)) pIso
            (rowTsRaw fields) = Except.ok (tsOfRaw pIso (rowTsRaw fields)) := by
          cases hraw : rowTsRaw fields with
          | none => rfl
          | some v =>
            cases v with
            | str s =>
              by_cases hd : pyIsDigit s = true
              · simp [tsOfRawE, tsOfRaw, hd]
              · simp [tsOfRawE, tsOfRaw, hd]
            | null => rfl
            | bool b => rfl
            | num q => rfl
            | arr l => rfl
            | obj o => rfl
        simp only [normRowE, normRow, rowTs, hts]
        cases tsOfRaw pIso (rowTsRaw fields) with
        | none => rfl
        | some t =>
          cases rowPrice pFloat country fields with
          | none => rfl
          | some p => rfl
      | null => rfl
      | bool b => rfl
      | num q => rfl
      | str s => rfl
      | arr l => rfl
    cases hq : normRow pIso pFloat country vf row with
    | none =>
      simp only [normalizeRowsE, hrow, hq, normalizeRows, List.filterMap_cons]
      simpa [normalizeRows] using ih
    | some q =>
      simp only [normalizeRowsE, hrow, hq, normalizeRows, List.filterMap_cons]
      rw [show normalizeRowsE pyIsDigit (fun s => some (digitsToNat s)) pIso pFloat country
        vf rest = Except.ok (normalizeRows pIso pFloat country vf rest) from ih]
      simp [normalizeRows]

/-- C10 (failing input): on a row whose timestamp is the superscript
digit string `²` — `"²".isdigit()` is true yet `int("²")` raises
`ValueError` — the normalization loop escapes with the uncaught error
instead of silently skipping the row, discarding the quarters already
collected: normalization is not total. -/
theorem normalization_raises_on_superscript_digit :
    normalizeRowsE (fun s => s == "²" || pyIsDigit s)
        (fun s => if s == "²" then none else some (digitsToNat s))
        (fun _ => none) (fun _ => none) "ee" (vatFactor 25)
        [JsonVal.obj [("timestamp", JsonVal.num 0), ("price", JsonVal.num 4)],
         JsonVal.obj [("timestamp", JsonVal.str "²"), ("price", JsonVal.num 1)]] =
      Except.error () := rfl

/-- C5 (failing input): a cache-missing call whose fetch returns HTTP 200
with locatable rows containing the timestamp string `²` ends in the
uncaught `ValueError` of the bare `int()` (coordinator line 150): the
call neither raises `UpdateFailed` nor returns a normalized result,
against the claimed dichotomy; the cache is left untouched. -/
theorem update_crashes_on_superscript_digit :
    updateDataE (fun s => s == "²" || pyIsDigit s)
        (fun s => if s == "²" then none else some (digitsToNat s))
        (fun _ => none) (fun _ => none) "ee" (vatFactor 25) ⟨none, none⟩ 0
        (FetchOutcome.resp 200 (some (JsonVal.arr
          [JsonVal.obj [("timestamp", JsonVal.str "²"), ("price", JsonVal.num 1)]]))) =
      (⟨none, none⟩, Except.error UpdateErr.crashed, true) := rfl

end Elering
